import Mathlib

/-!
# Verification of the VoxPilot adaptive voice-activity segmentation engine

Shallow embedding of the adaptive VAD (`src/vad.ts`, class
`VoiceActivityDetector`) and of the frame segmenter / segment accumulator
of the `VoxPilotEngine` (the engine listing in `README.md`:
`onAudioChunk`, `processFrame`, `finalizeSpeech`, `FRAME_SIZE`,
`MAX_SPEECH_BYTES`).

Numbers: the source computes with IEEE doubles; the model uses exact
rationals (`ℚ`).  The VAD state machine consumes per-frame RMS values; the
source obtains them as `Math.sqrt` of a rational mean of squares, so the
state machine is modelled as a function of an arbitrary rational RMS input
(`process`), and the RMS radicand computation (`computeRMSSq`) is embedded
separately at byte level.  Frames and byte chunks are `List ℕ` (byte
values).
-/

set_option maxRecDepth 100000

namespace VoxPilot

/-- Result record returned by `VoiceActivityDetector.process`
(`vad.ts` line 38). -/
structure VadResult where
  isSpeech : Bool
  speechStarted : Bool
  speechEnded : Bool
  rms : ℚ
  threshold : ℚ
deriving DecidableEq, Repr

/-- The mutable fields of class `VoiceActivityDetector` (`vad.ts` lines
5–23), together with the per-instance configuration computed in the
constructor (`sensitivityMultiplier`, `silenceOnsetFrames`). -/
structure VadState where
  sensitivityMultiplier : ℚ
  silenceOnsetFrames : ℤ
  speechFrames : ℕ
  silenceFrames : ℕ
  isSpeaking : Bool
  noiseFloor : ℚ
  calibrationFrames : ℕ
  calibrated : Bool
  rmsSum : ℚ
deriving DecidableEq, Repr

namespace VoiceActivityDetector

/-- `calibrationTarget = 30` (`vad.ts` line 14). -/
def calibrationTarget : ℕ := 30

/-- `speechOnsetFrames = 3` (`vad.ts` line 19). -/
def speechOnsetFrames : ℕ := 3

/-- `minThreshold = 0.002` (`vad.ts` line 23). -/
def minThreshold : ℚ := 2/1000

/-- The constructor (`vad.ts` lines 25–32):
`sensitivityMultiplier = 1.5 + (1 - sensitivity) * 5`,
`silenceOnsetFrames = Math.ceil(silenceTimeoutMs / frameDurationMs)`;
all counters and the noise floor start at their field initializers. -/
def init (sensitivity silenceTimeoutMs frameDurationMs : ℚ) : VadState :=
  { sensitivityMultiplier := 3/2 + (1 - sensitivity) * 5
    silenceOnsetFrames := Rat.ceil (silenceTimeoutMs / frameDurationMs)
    speechFrames := 0
    silenceFrames := 0
    isSpeaking := false
    noiseFloor := 0
    calibrationFrames := 0
    calibrated := false
    rmsSum := 0 }

/-- Calibration branch of `process` (`vad.ts` lines 42–50): accumulate the
RMS sum; on reaching the target, set the noise floor to the mean and mark
calibrated.  The returned record is
`{isSpeech: false, speechStarted: false, speechEnded: false, rms, threshold: 0}`. -/
def processCalibrating (s : VadState) (rms : ℚ) : VadState × VadResult :=
  let rmsSum := s.rmsSum + rms
  let calibrationFrames := s.calibrationFrames + 1
  let s' :=
    if calibrationTarget ≤ calibrationFrames then
      { s with rmsSum := rmsSum, calibrationFrames := calibrationFrames,
               noiseFloor := rmsSum / (calibrationFrames : ℚ), calibrated := true }
    else
      { s with rmsSum := rmsSum, calibrationFrames := calibrationFrames }
  (s', { isSpeech := false, speechStarted := false, speechEnded := false,
         rms := rms, threshold := 0 })

/-- The noise floor used on a calibrated frame (`vad.ts` lines 53–55):
updated by the exponential moving average only while not speaking. -/
def updatedFloor (s : VadState) (rms : ℚ) : ℚ :=
  if s.isSpeaking = false then s.noiseFloor * (19/20) + rms * (1/20) else s.noiseFloor

/-- The decision threshold of a calibrated frame (`vad.ts` line 57):
`max(noiseFloor * sensitivityMultiplier, minThreshold)`. -/
def currentThreshold (s : VadState) (rms : ℚ) : ℚ :=
  max (updatedFloor s rms * s.sensitivityMultiplier) minThreshold

/-- Calibrated branch of `process` (`vad.ts` lines 52–81): classify the
frame against the threshold, run the debounce counters, and emit the
onset/offset events. -/
def processCalibrated (s : VadState) (rms : ℚ) : VadState × VadResult :=
  let noiseFloor := updatedFloor s rms
  let threshold := currentThreshold s rms
  if currentThreshold s rms < rms then
    if s.isSpeaking = false ∧ speechOnsetFrames ≤ s.speechFrames + 1 then
      ({ s with noiseFloor := noiseFloor, speechFrames := s.speechFrames + 1,
                silenceFrames := 0, isSpeaking := true },
       { isSpeech := true, speechStarted := true, speechEnded := false,
         rms := rms, threshold := threshold })
    else
      ({ s with noiseFloor := noiseFloor, speechFrames := s.speechFrames + 1,
                silenceFrames := 0 },
       { isSpeech := s.isSpeaking, speechStarted := false, speechEnded := false,
         rms := rms, threshold := threshold })
  else
    if s.isSpeaking = true ∧ s.silenceOnsetFrames ≤ ((s.silenceFrames + 1 : ℕ) : ℤ) then
      ({ s with noiseFloor := noiseFloor, silenceFrames := s.silenceFrames + 1,
                speechFrames := 0, isSpeaking := false },
       { isSpeech := false, speechStarted := false, speechEnded := true,
         rms := rms, threshold := threshold })
    else
      ({ s with noiseFloor := noiseFloor, silenceFrames := s.silenceFrames + 1,
                speechFrames := 0 },
       { isSpeech := s.isSpeaking, speechStarted := false, speechEnded := false,
         rms := rms, threshold := threshold })

/-- `VoiceActivityDetector.process` (`vad.ts` lines 38–82), as a function
of the frame's RMS value.  The source computes `rms = computeRMS(pcm16)`
and then branches on calibration. -/
def process (s : VadState) (rms : ℚ) : VadState × VadResult :=
  if s.calibrated = false then processCalibrating s rms else processCalibrated s rms

/-- `VoiceActivityDetector.reset` (`vad.ts` lines 84–92). -/
def reset (s : VadState) : VadState :=
  { s with speechFrames := 0, silenceFrames := 0, isSpeaking := false,
           calibrated := false, calibrationFrames := 0, rmsSum := 0, noiseFloor := 0 }

/-- Fold `process` over a sequence of per-frame RMS values, collecting the
returned result records in order. -/
def processSeq (s : VadState) (rs : List ℚ) : VadState × List VadResult :=
  match rs with
  | [] => (s, [])
  | r :: rest =>
    let p := process s r
    let q := processSeq p.1 rest
    (q.1, p.2 :: q.2)

/-- `Buffer.readInt16LE` on a byte pair: little-endian 16-bit signed
decode, as used by `computeRMS` (`vad.ts` line 100). -/
def readInt16LE (lo hi : ℕ) : ℤ :=
  let u : ℤ := (lo : ℤ) + 256 * (hi : ℤ)
  if 32768 ≤ u then u - 65536 else u

/-- The accumulation loop of `computeRMS` (`vad.ts` lines 98–102):
`for (i = 0; i < pcm16.length; i += 2) { sample = readInt16LE(i)/32768;
sumSq += sample * sample }`.  A read past the end of the buffer (odd
remaining length) throws in Node, modelled as `none`. -/
def sumSquares : List ℕ → Option ℚ
  | [] => some 0
  | lo :: hi :: rest =>
    (sumSquares rest).map
      (fun t => ((readInt16LE lo hi : ℚ) / 32768) * ((readInt16LE lo hi : ℚ) / 32768) + t)
  | _ :: [] => none

/-- The radicand computed by `computeRMS` (`vad.ts` lines 94–104):
`sumSq / samples` with `samples = pcm16.length / 2`, guarded by
`if (samples === 0) return 0`.  In the source `samples` is an exact float,
so it is zero exactly when the byte list is empty; the source returns
`Math.sqrt` of this value, so all RMS facts are stated on the radicand. -/
def computeRMSSq (pcm16 : List ℕ) : Option ℚ :=
  if pcm16.length = 0 then some 0
  else (sumSquares pcm16).map (fun sumSq => sumSq / ((pcm16.length / 2 : ℕ) : ℚ))

/-- The per-frame classification recoverable from a returned result:
`frameIsSpeech = rms > threshold` (`vad.ts` line 58). -/
def isAbove (res : VadResult) : Bool := res.threshold < res.rms

/-- The complementary classification: the frame was at or below the
decision threshold (the `else` branch of `vad.ts` line 63). -/
def isBelow (res : VadResult) : Bool := res.rms ≤ res.threshold

/-- Sample list decoded from a little-endian 16-bit byte stream, used to
state the spec-side RMS formula. -/
def decodeSamplesLE : List ℕ → List ℤ
  | lo :: hi :: rest => readInt16LE lo hi :: decodeSamplesLE rest
  | _ => []

/-- The spec's RMS radicand, written from the spec's words: "normalize
each sample to [-1,1] by dividing by 32768, compute sqrt(mean(sample^2))
over the frame" — this is the mean of the squared normalized samples,
to be compared with the loop-based `computeRMSSq` from the source. -/
def specRMSSq (pcm16 : List ℕ) : ℚ :=
  (((decodeSamplesLE pcm16).map (fun s => ((s : ℚ) / 32768) * ((s : ℚ) / 32768))).sum)
    / ((decodeSamplesLE pcm16).length : ℚ)

/-- The three event/classification booleans of a returned result, used to
state whole-trace facts compactly. -/
def eventTriple (res : VadResult) : Bool × Bool × Bool :=
  (res.isSpeech, res.speechStarted, res.speechEnded)

end VoiceActivityDetector

namespace VoxPilotEngine

/-- `FRAME_SIZE = 960 * 2` (README engine listing): one 30 ms frame of
16 kHz mono 16-bit audio. -/
def FRAME_SIZE : ℕ := 960 * 2

/-- `MAX_SPEECH_BYTES = 15 * 16000 * 2` (README engine listing). -/
def MAX_SPEECH_BYTES : ℕ := 15 * 16000 * 2

/-- The `while` loop of `onAudioChunk` (README engine listing): as long as
the pending buffer holds at least `FRAME_SIZE` bytes, slice off one frame;
returns the emitted frames in order together with the remaining residual. -/
def emitFrames (pending : List ℕ) : List (List ℕ) × List ℕ :=
  if hlen : FRAME_SIZE ≤ pending.length then
    let q := emitFrames (pending.drop FRAME_SIZE)
    (pending.take FRAME_SIZE :: q.1, q.2)
  else
    ([], pending)
termination_by pending.length
decreasing_by
  simpa [List.length_drop] using Nat.sub_lt (Nat.lt_of_lt_of_le (by decide) hlen) (by decide)

/-- `VoxPilotEngine.onAudioChunk` (README engine listing), frame-segmenter
part: append the chunk to the pending residual and slice off full frames.
The source then runs `processFrame` on each emitted frame. -/
def onAudioChunk (pending chunk : List ℕ) : List (List ℕ) × List ℕ :=
  emitFrames (pending ++ chunk)

/-- Feed a sequence of byte chunks through `onAudioChunk`, starting from a
given residual; collects all emitted frames in order. -/
def feedAll (pending : List ℕ) : List (List ℕ) → List (List ℕ) × List ℕ
  | [] => ([], pending)
  | c :: cs =>
    let p := onAudioChunk pending c
    let q := feedAll p.2 cs
    (p.1 ++ q.1, q.2)

/-- The engine state relevant to segment accumulation: the VAD instance
and the `speechBuffer` list of frames (README engine listing). -/
structure EngineState where
  vad : VadState
  speechBuffer : List (List ℕ)
deriving DecidableEq, Repr

/-- Engine state right after `startListening`: `speechBuffer = []` and
`vad.reset()` applied to a freshly configured VAD. -/
def initEngine (sensitivity silenceTimeoutMs frameDurationMs : ℚ) : EngineState :=
  { vad := VoiceActivityDetector.init sensitivity silenceTimeoutMs frameDurationMs
    speechBuffer := [] }

/-- `totalBytes` as computed in `processFrame`:
`speechBuffer.reduce((sum, b) => sum + b.length, 0)`. -/
def totalBytes (bufs : List (List ℕ)) : ℕ := (bufs.map List.length).sum

/-- `VoxPilotEngine.finalizeSpeech` (README engine listing), segment part:
if the buffer is empty do nothing, otherwise hand `Buffer.concat(speechBuffer)`
to the transcriber and clear the buffer. -/
def finalizeSpeech (st : EngineState) : EngineState × Option (List ℕ) :=
  if st.speechBuffer.length = 0 then (st, none)
  else ({ st with speechBuffer := [] }, some st.speechBuffer.flatten)

/-- The buffering statement of `processFrame`:
`if (result.isSpeech || result.speechEnded) speechBuffer.push(frame)`. -/
def pushFrame (st : EngineState) (frame : List ℕ) (r : VadResult) : EngineState :=
  { st with speechBuffer :=
      if r.isSpeech || r.speechEnded then st.speechBuffer ++ [frame]
      else st.speechBuffer }

/-- `VoxPilotEngine.processFrame` (README engine listing): run the VAD on
the frame, append the frame to `speechBuffer` when `isSpeech || speechEnded`,
flush when speaking and the byte total reached `MAX_SPEECH_BYTES` (early
return), otherwise flush on `speechEnded`.  The frame's RMS value is passed
explicitly; the source computes it as the real square root of
`computeRMSSq frame` (status-bar and logging statements are UI glue and are
omitted). -/
def processFrame (st : EngineState) (frame : List ℕ) (rms : ℚ) :
    EngineState × Option (List ℕ) :=
  let p := VoiceActivityDetector.process st.vad rms
  let st₁ := pushFrame { st with vad := p.1 } frame p.2
  if p.2.isSpeech = true ∧ MAX_SPEECH_BYTES ≤ totalBytes st₁.speechBuffer then
    finalizeSpeech st₁
  else if p.2.speechEnded = true then
    finalizeSpeech st₁
  else
    (st₁, none)

/-- Run `processFrame` over a list of (frame, RMS) inputs, collecting every
flushed segment in order. -/
def runFrames (st : EngineState) : List (List ℕ × ℚ) → EngineState × List (List ℕ)
  | [] => (st, [])
  | (f, r) :: rest =>
    let p := processFrame st f r
    let q := runFrames p.1 rest
    (q.1, p.2.toList ++ q.2)

/-- The buffer invariant maintained by `processFrame`: every buffered
frame is one `FRAME_SIZE` slice and the byte total is strictly below the
cap (so one more frame can never push a flushed segment past the cap). -/
def BufferOk (st : EngineState) : Prop :=
  (∀ b ∈ st.speechBuffer, b.length = FRAME_SIZE)
  ∧ totalBytes st.speechBuffer < MAX_SPEECH_BYTES

end VoxPilotEngine

/-! ## Frame segmenter lemmas -/

namespace VoxPilotEngine

theorem emitFrames_flatten (p : List ℕ) :
    (emitFrames p).1.flatten ++ (emitFrames p).2 = p := by
  induction p using emitFrames.induct with
  | case1 p h ih =>
    rw [emitFrames, dif_pos h]
    simp [List.flatten_cons, List.append_assoc, ih, List.take_append_drop]
  | case2 p h =>
    rw [emitFrames, dif_neg h]
    simp

theorem emitFrames_residual_lt (p : List ℕ) :
    (emitFrames p).2.length < FRAME_SIZE := by
  induction p using emitFrames.induct with
  | case1 p h ih => rw [emitFrames, dif_pos h]; exact ih
  | case2 p h => rw [emitFrames, dif_neg h]; exact Nat.lt_of_not_le h

theorem emitFrames_sizes (p : List ℕ) :
    ∀ f ∈ (emitFrames p).1, f.length = FRAME_SIZE := by
  induction p using emitFrames.induct with
  | case1 p h ih =>
    rw [emitFrames, dif_pos h]
    intro f hf
    rcases List.mem_cons.1 hf with rfl | hf
    · simpa [List.length_take] using Nat.min_eq_left h
    · exact ih f hf
  | case2 p h =>
    rw [emitFrames, dif_neg h]
    intro f hf
    simp at hf

theorem feedAll_flatten (chunks : List (List ℕ)) :
    ∀ pending : List ℕ,
      (feedAll pending chunks).1.flatten ++ (feedAll pending chunks).2 =
        pending ++ chunks.flatten := by
  induction chunks with
  | nil => intro pending; simp [feedAll]
  | cons c cs ih =>
    intro pending
    simp only [feedAll, onAudioChunk, List.flatten_cons, List.flatten_append,
      List.append_assoc]
    rw [ih, ← List.append_assoc, emitFrames_flatten, List.append_assoc]

theorem feedAll_residual_lt (chunks : List (List ℕ)) :
    ∀ pending : List ℕ, pending.length < FRAME_SIZE →
      (feedAll pending chunks).2.length < FRAME_SIZE := by
  induction chunks with
  | nil => intro pending h; exact h
  | cons c cs ih =>
    intro pending _
    exact ih _ (emitFrames_residual_lt (pending ++ c))

theorem feedAll_sizes (chunks : List (List ℕ)) :
    ∀ pending : List ℕ, ∀ f ∈ (feedAll pending chunks).1, f.length = FRAME_SIZE := by
  induction chunks with
  | nil => intro pending f hf; simp [feedAll] at hf
  | cons c cs ih =>
    intro pending f hf
    rcases List.mem_append.1 hf with hf | hf
    · exact emitFrames_sizes (pending ++ c) f hf
    · exact ih _ f hf

end VoxPilotEngine

/-- C5: for every sequence of byte chunks of arbitrary sizes, the
concatenation of the emitted fixed-size frames plus the trailing residual
equals the concatenation of all fed bytes (so no byte is dropped,
duplicated, or reordered), the residual is strictly shorter than one frame
(1920 bytes), and every emitted frame has exactly `FRAME_SIZE` bytes (no
short frame is ever emitted). -/
theorem claim_frame_segmenter_exact (chunks : List (List ℕ)) :
    (VoxPilotEngine.feedAll [] chunks).1.flatten ++ (VoxPilotEngine.feedAll [] chunks).2 =
        chunks.flatten
    ∧ (VoxPilotEngine.feedAll [] chunks).2.length < VoxPilotEngine.FRAME_SIZE
    ∧ ∀ f ∈ (VoxPilotEngine.feedAll [] chunks).1, f.length = VoxPilotEngine.FRAME_SIZE :=
  ⟨by simpa using VoxPilotEngine.feedAll_flatten chunks [],
   VoxPilotEngine.feedAll_residual_lt chunks [] (by decide),
   VoxPilotEngine.feedAll_sizes chunks []⟩

/-! ## Alignment behaviour of the segmenter (claim C9) -/

namespace VoxPilotEngine

theorem emitFrames_small (p : List ℕ) (h : p.length < FRAME_SIZE) :
    emitFrames p = ([], p) := by
  rw [emitFrames, dif_neg (Nat.not_le_of_lt h)]

theorem emitFrames_exact (p : List ℕ) (h : p.length = FRAME_SIZE) :
    emitFrames p = ([p], []) := by
  rw [emitFrames, dif_pos (le_of_eq h.symm)]
  rw [List.take_of_length_le (le_of_eq h), List.drop_eq_nil_of_le (le_of_eq h)]
  rw [emitFrames_small _ (by simp [FRAME_SIZE])]

end VoxPilotEngine

/-- C9 counterexample: the claim says a call whose byte count is not a
multiple of the sample width is rejected with an `InvalidFrameAlignment`
error.  The code has no such check: a 1-byte chunk is silently held as the
residual, and once 1919 further bytes arrive the segmenter emits a frame
beginning with the misaligned byte — the misaligned input is processed,
not rejected. -/
theorem misaligned_chunk_silently_processed :
    (VoxPilotEngine.feedAll [] [[7]]).1 = []
    ∧ (VoxPilotEngine.feedAll [] [[7]]).2 = [7]
    ∧ (VoxPilotEngine.feedAll [] [[7], List.replicate 1919 3]).1 =
        [7 :: List.replicate 1919 3] := by
  have e1 : VoxPilotEngine.onAudioChunk [] [7] = ([], [7]) := by
    rw [VoxPilotEngine.onAudioChunk, List.nil_append]
    exact VoxPilotEngine.emitFrames_small _ (by simp [VoxPilotEngine.FRAME_SIZE])
  have e2 : VoxPilotEngine.onAudioChunk [7] (List.replicate 1919 3) =
      ([7 :: List.replicate 1919 3], []) := by
    rw [VoxPilotEngine.onAudioChunk, List.singleton_append]
    exact VoxPilotEngine.emitFrames_exact _ (by simp [VoxPilotEngine.FRAME_SIZE])
  have f3 : VoxPilotEngine.feedAll [] [[7]] = ([], [7]) := by
    simp only [VoxPilotEngine.feedAll, e1, List.append_nil]
  have f5 : VoxPilotEngine.feedAll [] [[7], List.replicate 1919 3] =
      ([7 :: List.replicate 1919 3], []) := by
    simp only [VoxPilotEngine.feedAll, e1, e2, List.append_nil, List.nil_append]
  exact ⟨by rw [f3], by rw [f3], by rw [f5]⟩

/-- C9 amended: the engine performs no alignment check.  A chunk that
makes the accumulated byte count odd (not a multiple of the 2-byte sample
width) is absorbed without any error: all bytes still flow into frames in
order, and the odd residual is silently carried to the next call. -/
theorem no_alignment_check (pending chunk : List ℕ)
    (hodd : (pending.length + chunk.length) % 2 = 1) :
    (VoxPilotEngine.onAudioChunk pending chunk).1.flatten ++
        (VoxPilotEngine.onAudioChunk pending chunk).2 = pending ++ chunk
    ∧ (VoxPilotEngine.onAudioChunk pending chunk).2.length % 2 = 1 := by
  refine ⟨VoxPilotEngine.emitFrames_flatten _, ?_⟩
  have hsz := VoxPilotEngine.emitFrames_sizes (pending ++ chunk)
  have hdvd : 2 ∣ (VoxPilotEngine.emitFrames (pending ++ chunk)).1.flatten.length := by
    rw [List.length_flatten]
    refine List.dvd_sum ?_
    intro x hx
    obtain ⟨f, hf, rfl⟩ := List.mem_map.1 hx
    rw [hsz f hf]
    decide
  have hlen : (VoxPilotEngine.emitFrames (pending ++ chunk)).1.flatten.length +
      (VoxPilotEngine.emitFrames (pending ++ chunk)).2.length =
      pending.length + chunk.length := by
    have h := congrArg List.length (VoxPilotEngine.emitFrames_flatten (pending ++ chunk))
    simpa [List.length_append] using h
  obtain ⟨k, hk⟩ := hdvd
  simp only [VoxPilotEngine.onAudioChunk]
  omega

/-- Witness for `no_alignment_check` at the concrete misaligned input
`pending = []`, `chunk = [7]`. -/
theorem no_alignment_check_witness :
    (VoxPilotEngine.onAudioChunk [] [7]).1.flatten ++
        (VoxPilotEngine.onAudioChunk [] [7]).2 = [] ++ [7]
    ∧ (VoxPilotEngine.onAudioChunk [] [7]).2.length % 2 = 1 :=
  no_alignment_check [] [7] (by decide)

/-! ## Segment accumulator byte bound (claim C4) -/

namespace VoxPilotEngine

theorem totalBytes_append (l : List (List ℕ)) (f : List ℕ) :
    totalBytes (l ++ [f]) = totalBytes l + f.length := by
  simp [totalBytes]

theorem totalBytes_dvd (l : List (List ℕ))
    (h : ∀ b ∈ l, b.length = FRAME_SIZE) : FRAME_SIZE ∣ totalBytes l := by
  refine List.dvd_sum ?_
  intro x hx
  obtain ⟨f, hf, rfl⟩ := List.mem_map.1 hx
  rw [h f hf]

theorem length_flatten_totalBytes (l : List (List ℕ)) :
    l.flatten.length = totalBytes l := by
  rw [List.length_flatten, totalBytes]

theorem totalBytes_nil : totalBytes [] = 0 := rfl

theorem max_bytes_pos : 0 < MAX_SPEECH_BYTES := by decide

theorem finalizeSpeech_ok (st : EngineState)
    (hsz : ∀ b ∈ st.speechBuffer, b.length = FRAME_SIZE)
    (hle : totalBytes st.speechBuffer ≤ MAX_SPEECH_BYTES) :
    BufferOk (finalizeSpeech st).1
    ∧ ∀ seg, (finalizeSpeech st).2 = some seg →
        0 < seg.length ∧ seg.length ≤ MAX_SPEECH_BYTES := by
  rw [finalizeSpeech]
  split
  · rename_i hemp
    have hnil : st.speechBuffer = [] := List.length_eq_zero.1 hemp
    refine ⟨⟨hsz, ?_⟩, ?_⟩
    · show totalBytes st.speechBuffer < MAX_SPEECH_BYTES
      rw [hnil, totalBytes_nil]
      exact max_bytes_pos
    · intro seg h
      simp at h
  · rename_i hne
    refine ⟨⟨?_, ?_⟩, ?_⟩
    · intro b hb
      simp at hb
    · show totalBytes [] < MAX_SPEECH_BYTES
      rw [totalBytes_nil]
      exact max_bytes_pos
    · intro seg hseg
      have hseg' : seg = st.speechBuffer.flatten := by
        simpa using hseg.symm
      subst hseg'
      rw [length_flatten_totalBytes]
      refine ⟨?_, hle⟩
      match hb : st.speechBuffer with
      | [] => rw [hb] at hne; simp at hne
      | b :: rest =>
        have hb1 : b.length = FRAME_SIZE :=
          hsz b (by rw [hb]; exact List.mem_cons_self b rest)
        simp only [totalBytes, List.map_cons, List.sum_cons, hb1, FRAME_SIZE]
        omega

theorem processFrame_bounds (st : EngineState) (frame : List ℕ) (rms : ℚ)
    (hok : BufferOk st) (hf : frame.length = FRAME_SIZE) :
    BufferOk (processFrame st frame rms).1
    ∧ ∀ seg, (processFrame st frame rms).2 = some seg →
        0 < seg.length ∧ seg.length ≤ MAX_SPEECH_BYTES := by
  obtain ⟨hsz, hlt⟩ := hok
  obtain ⟨k, hk⟩ := totalBytes_dvd _ hsz
  simp only [processFrame]
  set p := VoiceActivityDetector.process st.vad rms with hp
  set st₁ := pushFrame { st with vad := p.1 } frame p.2 with hst₁
  have hbuf : st₁.speechBuffer =
      (if p.2.isSpeech || p.2.speechEnded then st.speechBuffer ++ [frame]
       else st.speechBuffer) := rfl
  have hsz₁ : ∀ b ∈ st₁.speechBuffer, b.length = FRAME_SIZE := by
    rw [hbuf]
    split
    · intro b hb
      rcases List.mem_append.1 hb with hb | hb
      · exact hsz b hb
      · rw [List.mem_singleton.1 hb]; exact hf
    · exact hsz
  have htot₁ : totalBytes st₁.speechBuffer ≤ MAX_SPEECH_BYTES := by
    rw [hbuf]
    split
    · rw [totalBytes_append, hf]
      simp only [FRAME_SIZE, MAX_SPEECH_BYTES] at hk hlt ⊢
      omega
    · exact Nat.le_of_lt hlt
  split
  · exact finalizeSpeech_ok st₁ hsz₁ htot₁
  · split
    · exact finalizeSpeech_ok st₁ hsz₁ htot₁
    · rename_i hnotmax hnotend
      refine ⟨⟨hsz₁, ?_⟩, ?_⟩
      · rcases hcase : (p.2.isSpeech || p.2.speechEnded) with _ | _
        · rw [hbuf, hcase, if_neg (by simp)]
          exact hlt
        · rcases Bool.or_eq_true_iff.1 hcase with hspeech | hended
          · rcases Nat.lt_or_ge (totalBytes st₁.speechBuffer) MAX_SPEECH_BYTES
              with hlt₁ | hge₁
            · exact hlt₁
            · exact absurd ⟨hspeech, hge₁⟩ hnotmax
          · exact absurd hended hnotend
      · intro seg h
        simp at h

/-- Run-level invariant: feeding fixed-size frames from a state satisfying
the buffer invariant, every flushed segment is nonempty and at most
`MAX_SPEECH_BYTES`, and the invariant is preserved. -/
theorem runFrames_bounds (inputs : List (List ℕ × ℚ)) :
    ∀ st : EngineState, BufferOk st →
      (∀ x ∈ inputs, x.1.length = FRAME_SIZE) →
      BufferOk (runFrames st inputs).1
      ∧ ∀ seg ∈ (runFrames st inputs).2,
          0 < seg.length ∧ seg.length ≤ MAX_SPEECH_BYTES := by
  induction inputs with
  | nil =>
    intro st hok _
    exact ⟨hok, by intro seg h; simp [runFrames] at h⟩
  | cons x rest ih =>
    intro st hok hsizes
    obtain ⟨f, r⟩ := x
    have hf : f.length = FRAME_SIZE := hsizes (f, r) (List.mem_cons_self _ _)
    obtain ⟨hok₁, hseg₁⟩ := processFrame_bounds st f r hok hf
    obtain ⟨hok₂, hseg₂⟩ :=
      ih (processFrame st f r).1 hok₁ (fun y hy => hsizes y (List.mem_cons_of_mem _ hy))
    refine ⟨hok₂, ?_⟩
    intro seg hseg
    simp only [runFrames, List.mem_append] at hseg
    rcases hseg with hseg | hseg
    · rcases ho : (processFrame st f r).2 with _ | s
      · rw [ho] at hseg; simp at hseg
      · rw [ho] at hseg
        simp only [Option.toList_some, List.mem_singleton] at hseg
        subst hseg
        exact hseg₁ seg ho
    · exact hseg₂ seg hseg

end VoxPilotEngine

/-- C4: starting from a fresh engine (any VAD configuration, empty speech
buffer) and feeding any sequence of fixed-size frames with arbitrary RMS
values, every segment flushed to the transcription sink has byte length
strictly greater than 0 and at most `MAX_SPEECH_BYTES` (= 15·16000·2 =
480000); the speech buffer itself never exceeds the cap, so accumulating
more than `MAX_SPEECH_BYTES` of continuous speech forces a flush at the
point the cap is reached, never after. -/
theorem claim_segment_bytes_bounded (sens tmo dur : ℚ)
    (inputs : List (List ℕ × ℚ))
    (hsizes : ∀ x ∈ inputs, x.1.length = VoxPilotEngine.FRAME_SIZE) :
    (∀ seg ∈ (VoxPilotEngine.runFrames (VoxPilotEngine.initEngine sens tmo dur) inputs).2,
        0 < seg.length ∧ seg.length ≤ VoxPilotEngine.MAX_SPEECH_BYTES)
    ∧ VoxPilotEngine.totalBytes
        (VoxPilotEngine.runFrames (VoxPilotEngine.initEngine sens tmo dur) inputs).1.speechBuffer
        < VoxPilotEngine.MAX_SPEECH_BYTES := by
  have hok0 : VoxPilotEngine.BufferOk (VoxPilotEngine.initEngine sens tmo dur) := by
    refine ⟨?_, ?_⟩
    · intro b hb
      simp [VoxPilotEngine.initEngine] at hb
    · show VoxPilotEngine.totalBytes [] < VoxPilotEngine.MAX_SPEECH_BYTES
      rw [VoxPilotEngine.totalBytes_nil]
      exact VoxPilotEngine.max_bytes_pos
  have h := VoxPilotEngine.runFrames_bounds inputs
    (VoxPilotEngine.initEngine sens tmo dur) hok0 hsizes
  exact ⟨h.2, h.1.2⟩

/-- Witness for `claim_segment_bytes_bounded`: a concrete 34-frame run of
full-size frames (30 calibration frames, 3 loud frames, 1 silent frame,
with a 1-frame silence debounce); the bounds follow by applying the
theorem. -/
theorem claim_segment_bytes_bounded_witness :
    (∀ x ∈ List.replicate 30 (List.replicate 1920 (0:ℕ), (0:ℚ)) ++
        List.replicate 3 (List.replicate 1920 (0:ℕ), (1:ℚ)) ++
        [(List.replicate 1920 (0:ℕ), (0:ℚ))],
      x.1.length = VoxPilotEngine.FRAME_SIZE)
    ∧ (∀ seg ∈ (VoxPilotEngine.runFrames (VoxPilotEngine.initEngine (1/2) 30 30)
          (List.replicate 30 (List.replicate 1920 (0:ℕ), (0:ℚ)) ++
           List.replicate 3 (List.replicate 1920 (0:ℕ), (1:ℚ)) ++
           [(List.replicate 1920 (0:ℕ), (0:ℚ))])).2,
        0 < seg.length ∧ seg.length ≤ VoxPilotEngine.MAX_SPEECH_BYTES) :=
  ⟨by simp [VoxPilotEngine.FRAME_SIZE, List.mem_replicate],
   (claim_segment_bytes_bounded (1/2) 30 30 _
     (by simp [VoxPilotEngine.FRAME_SIZE, List.mem_replicate])).1⟩

/-! ## Noise floor freeze during Speaking (claim C6) -/

/-- C6: while the VAD is in the Speaking state (so for every frame
processed strictly after the one that triggered `speechStarted`, up to and
including the frame that triggers `speechEnded`), `process` leaves the
noise floor unchanged, whatever the frame's RMS value. -/
theorem claim_noise_floor_frozen (s : VadState) (rms : ℚ)
    (hc : s.calibrated = true) (hs : s.isSpeaking = true) :
    (VoiceActivityDetector.process s rms).1.noiseFloor = s.noiseFloor := by
  rw [VoiceActivityDetector.process, if_neg (by rw [hc]; simp)]
  rw [VoiceActivityDetector.processCalibrated]
  have hfl : VoiceActivityDetector.updatedFloor s rms = s.noiseFloor := by
    rw [VoiceActivityDetector.updatedFloor, if_neg (by rw [hs]; simp)]
  split
  · split <;> simp [hfl]
  · split <;> simp [hfl]

/-- Witness for `claim_noise_floor_frozen` at a concrete speaking state
(calibrated on 30 silent frames, then three loud frames). -/
theorem claim_noise_floor_frozen_witness :
    ((VoiceActivityDetector.processSeq (VoiceActivityDetector.init (1/2) 1500 30)
        (List.replicate 30 0 ++ [1, 1, 1])).1.calibrated = true)
    ∧ ((VoiceActivityDetector.processSeq (VoiceActivityDetector.init (1/2) 1500 30)
        (List.replicate 30 0 ++ [1, 1, 1])).1.isSpeaking = true)
    ∧ (VoiceActivityDetector.process
        (VoiceActivityDetector.processSeq (VoiceActivityDetector.init (1/2) 1500 30)
          (List.replicate 30 0 ++ [1, 1, 1])).1 (7/2)).1.noiseFloor =
      (VoiceActivityDetector.processSeq (VoiceActivityDetector.init (1/2) 1500 30)
        (List.replicate 30 0 ++ [1, 1, 1])).1.noiseFloor :=
  ⟨by with_unfolding_all rfl, by with_unfolding_all rfl,
   claim_noise_floor_frozen _ (7/2) (by with_unfolding_all rfl)
     (by with_unfolding_all rfl)⟩

/-! ## Reset reproduces a fresh instance (claim C7) -/

namespace VoiceActivityDetector

theorem process_config (s : VadState) (r : ℚ) :
    (process s r).1.sensitivityMultiplier = s.sensitivityMultiplier
    ∧ (process s r).1.silenceOnsetFrames = s.silenceOnsetFrames := by
  rw [process]
  split
  · rw [processCalibrating]
    split <;> exact ⟨rfl, rfl⟩
  · simp only [processCalibrated]
    split
    · split <;> exact ⟨rfl, rfl⟩
    · split <;> exact ⟨rfl, rfl⟩

theorem processSeq_config (rs : List ℚ) :
    ∀ s : VadState,
      (processSeq s rs).1.sensitivityMultiplier = s.sensitivityMultiplier
      ∧ (processSeq s rs).1.silenceOnsetFrames = s.silenceOnsetFrames := by
  induction rs with
  | nil => intro s; exact ⟨rfl, rfl⟩
  | cons r rest ih =>
    intro s
    simp only [processSeq]
    refine ⟨?_, ?_⟩
    · rw [(ih (process s r).1).1, (process_config s r).1]
    · rw [(ih (process s r).1).2, (process_config s r).2]

theorem reset_eq_init (sens tmo dur : ℚ) (s : VadState)
    (h1 : s.sensitivityMultiplier = (init sens tmo dur).sensitivityMultiplier)
    (h2 : s.silenceOnsetFrames = (init sens tmo dur).silenceOnsetFrames) :
    reset s = init sens tmo dur := by
  cases s
  simp only [reset, init, VadState.mk.injEq] at h1 h2 ⊢
  exact ⟨h1, h2, trivial, trivial, trivial, trivial, trivial, trivial, trivial⟩

end VoiceActivityDetector

/-- C7: from any state reachable by construction with parameters
`(sens, tmo, dur)` followed by processing an arbitrary frame history,
calling `reset()` and then processing any further sequence produces
exactly the same states and classification results as a freshly
constructed VAD with the same parameters: `reset` returns the VAD to
Calibrating with all counters and the noise floor cleared, and nothing
else survives. -/
theorem claim_reset_equiv_fresh (sens tmo dur : ℚ) (past rs : List ℚ) :
    VoiceActivityDetector.processSeq
        (VoiceActivityDetector.reset
          (VoiceActivityDetector.processSeq
            (VoiceActivityDetector.init sens tmo dur) past).1) rs
      = VoiceActivityDetector.processSeq (VoiceActivityDetector.init sens tmo dur) rs := by
  have hc := VoiceActivityDetector.processSeq_config past
    (VoiceActivityDetector.init sens tmo dur)
  rw [VoiceActivityDetector.reset_eq_init sens tmo dur _ hc.1 hc.2]

/-! ## Noise floor nonnegativity and minimum threshold (claim C8) -/

namespace VoiceActivityDetector

theorem process_nonneg (s : VadState) (r : ℚ) (hr : 0 ≤ r)
    (h1 : 0 ≤ s.noiseFloor) (h2 : 0 ≤ s.rmsSum) :
    0 ≤ (process s r).1.noiseFloor ∧ 0 ≤ (process s r).1.rmsSum := by
  rw [process]
  split
  · rw [processCalibrating]
    split
    · refine ⟨div_nonneg (add_nonneg h2 hr) (by positivity), add_nonneg h2 hr⟩
    · exact ⟨h1, add_nonneg h2 hr⟩
  · have hup : 0 ≤ updatedFloor s r := by
      rw [updatedFloor]
      split
      · exact add_nonneg (mul_nonneg h1 (by norm_num)) (mul_nonneg hr (by norm_num))
      · exact h1
    simp only [processCalibrated]
    split
    · split <;> exact ⟨hup, h2⟩
    · split <;> exact ⟨hup, h2⟩

theorem processSeq_nonneg (rs : List ℚ) :
    ∀ s : VadState, (∀ r ∈ rs, 0 ≤ r) → 0 ≤ s.noiseFloor → 0 ≤ s.rmsSum →
      0 ≤ (processSeq s rs).1.noiseFloor ∧ 0 ≤ (processSeq s rs).1.rmsSum := by
  induction rs with
  | nil => intro s _ h1 h2; exact ⟨h1, h2⟩
  | cons r rest ih =>
    intro s hrs h1 h2
    simp only [processSeq]
    have hstep := process_nonneg s r (hrs r (List.mem_cons_self r rest)) h1 h2
    exact ih (process s r).1 (fun x hx => hrs x (List.mem_cons_of_mem r hx))
      hstep.1 hstep.2

theorem process_threshold_ge (s : VadState) (r : ℚ) (hc : s.calibrated = true) :
    minThreshold ≤ (process s r).2.threshold := by
  rw [process, if_neg (by rw [hc]; simp)]
  simp only [processCalibrated]
  split
  · split <;> exact le_max_right _ _
  · split <;> exact le_max_right _ _

end VoiceActivityDetector

/-- C8: feeding any sequence of nonnegative RMS values (the RMS computed
by the code is a square root, hence nonnegative) from a freshly
constructed VAD, the noise floor estimate in the reached state is ≥ 0;
and whenever the reached state is calibrated (i.e. a frame is actually
classified), the threshold returned by `process` for the next frame is at
least the configured minimum floor `minThreshold = 0.002`, so the VAD
never triggers on digital silence even if the noise floor collapses to
zero. -/
theorem claim_noise_floor_nonneg_min_threshold (sens tmo dur : ℚ)
    (rs : List ℚ) (hrs : ∀ r ∈ rs, 0 ≤ r) :
    0 ≤ (VoiceActivityDetector.processSeq
          (VoiceActivityDetector.init sens tmo dur) rs).1.noiseFloor
    ∧ ∀ r : ℚ,
        (VoiceActivityDetector.processSeq
          (VoiceActivityDetector.init sens tmo dur) rs).1.calibrated = true →
        VoiceActivityDetector.minThreshold ≤
          (VoiceActivityDetector.process
            (VoiceActivityDetector.processSeq
              (VoiceActivityDetector.init sens tmo dur) rs).1 r).2.threshold := by
  refine ⟨(VoiceActivityDetector.processSeq_nonneg rs _ hrs (le_refl 0) (le_refl 0)).1, ?_⟩
  intro r hc
  exact VoiceActivityDetector.process_threshold_ge _ r hc

/-- Witness for `claim_noise_floor_nonneg_min_threshold`: 31 concrete
nonnegative frames (calibration completes, so the threshold clause is
exercised). -/
theorem claim_noise_floor_nonneg_min_threshold_witness :
    (∀ r ∈ List.replicate 31 ((1:ℚ)/100), 0 ≤ r)
    ∧ (0 ≤ (VoiceActivityDetector.processSeq
          (VoiceActivityDetector.init (1/2) 1500 30)
          (List.replicate 31 ((1:ℚ)/100))).1.noiseFloor
      ∧ ∀ r : ℚ,
        (VoiceActivityDetector.processSeq
          (VoiceActivityDetector.init (1/2) 1500 30)
          (List.replicate 31 ((1:ℚ)/100))).1.calibrated = true →
        VoiceActivityDetector.minThreshold ≤
          (VoiceActivityDetector.process
            (VoiceActivityDetector.processSeq
              (VoiceActivityDetector.init (1/2) 1500 30)
              (List.replicate 31 ((1:ℚ)/100))).1 r).2.threshold) :=
  ⟨by with_unfolding_all decide,
   claim_noise_floor_nonneg_min_threshold (1/2) 1500 30 _
     (by with_unfolding_all decide)⟩

/-! ## `isSpeech` on the `speechEnded` frame (claim C1) -/

/-- C1 counterexample: the claim says the result that carries
`speechEnded = true` also has `isSpeech = true`.  On the concrete run
below (sensitivity 0.5, a 1-frame silence debounce, 30 silent calibration
frames, three loud frames, one silent frame) the final frame returns
`speechEnded = true` together with `isSpeech = false`: the code assigns
`isSpeaking = false` before building the result, so `isSpeech` reports the
post-transition state. -/
theorem claim_isSpeech_on_end_counterexample :
    ((VoiceActivityDetector.processSeq (VoiceActivityDetector.init (1/2) 30 30)
        (List.replicate 30 0 ++ [1, 1, 1, 0])).2.map
      (fun res => (res.speechEnded, res.isSpeech))).getLast? = some (true, false) := by
  with_unfolding_all rfl

/-- C1 amended: in a calibrated Speaking state the returned `isSpeech` is
the negation of the returned `speechEnded`: it is `true` on every frame
processed while Speaking continues, and `false` exactly on the frame that
triggers `speechEnded` (the result reports the post-transition state). -/
theorem claim_isSpeech_during_speaking (s : VadState) (r : ℚ)
    (hc : s.calibrated = true) (hs : s.isSpeaking = true) :
    (VoiceActivityDetector.process s r).2.isSpeech
      = !(VoiceActivityDetector.process s r).2.speechEnded := by
  rw [VoiceActivityDetector.process, if_neg (by rw [hc]; simp)]
  simp only [VoiceActivityDetector.processCalibrated]
  split
  · split
    · rename_i hcond
      rw [hs] at hcond
      simp at hcond
    · simp [hs]
  · split
    · simp
    · simp [hs]

/-- Witness for `claim_isSpeech_during_speaking` at a concrete calibrated
Speaking state. -/
theorem claim_isSpeech_during_speaking_witness :
    ((VoiceActivityDetector.processSeq (VoiceActivityDetector.init (1/2) 1500 30)
        (List.replicate 30 0 ++ [1, 1, 1])).1.calibrated = true)
    ∧ ((VoiceActivityDetector.processSeq (VoiceActivityDetector.init (1/2) 1500 30)
        (List.replicate 30 0 ++ [1, 1, 1])).1.isSpeaking = true)
    ∧ (VoiceActivityDetector.process
        (VoiceActivityDetector.processSeq (VoiceActivityDetector.init (1/2) 1500 30)
          (List.replicate 30 0 ++ [1, 1, 1])).1 0).2.isSpeech
      = !(VoiceActivityDetector.process
          (VoiceActivityDetector.processSeq (VoiceActivityDetector.init (1/2) 1500 30)
            (List.replicate 30 0 ++ [1, 1, 1])).1 0).2.speechEnded :=
  ⟨by with_unfolding_all rfl, by with_unfolding_all rfl,
   claim_isSpeech_during_speaking _ 0 (by with_unfolding_all rfl)
     (by with_unfolding_all rfl)⟩

/-! ## The spec scenario (claim C2) -/

/-- C2 counterexample: in the spec scenario (sensitivity 0.5,
frameDurationMs 30, thirty calibration frames of RMS 0.01, then frames of
RMS 0.05) the third RMS-0.05 frame does NOT return
`speechStarted = true` — no frame does.  With sensitivity 0.5 the
multiplier is `1.5 + 0.5·5 = 4.0` (not the ≈2.5 implied by the spec's
threshold ≈0.025), and during the onset debounce the VAD is not yet
Speaking, so the noise-floor EMA keeps adapting and pushes the threshold
above 0.05 from the second loud frame on. -/
theorem claim_spec_scenario_counterexample :
    ((VoiceActivityDetector.processSeq (VoiceActivityDetector.init (1/2) 1500 30)
        (List.replicate 30 (1/100) ++ List.replicate 3 (1/20))).2.map
      (fun res => res.speechStarted)) = List.replicate 33 false := by
  with_unfolding_all rfl

namespace VoiceActivityDetector

/-- Over the whole 133-frame spec scenario, every returned result has
`isSpeech = false`, `speechStarted = false` and `speechEnded = false`. -/
theorem scenario_no_events :
    ((processSeq (init (1/2) 1500 30)
        (List.replicate 30 (1/100) ++ List.replicate 53 (1/20) ++
          List.replicate 50 (1/200))).2.map eventTriple) =
      List.replicate 133 (false, false, false) := by
  with_unfolding_all rfl

theorem scenario_noise_floor :
    (processSeq (init (1/2) 1500 30) (List.replicate 30 (1/100))).1.noiseFloor
      = 1/100 := by
  with_unfolding_all rfl

theorem scenario_first_loud_threshold :
    ((processSeq (init (1/2) 1500 30)
        (List.replicate 30 (1/100) ++ [1/20])).2.map
          (fun res => res.threshold)).getLast? = some (6/125) := by
  with_unfolding_all rfl

theorem scenario_second_loud_threshold :
    ((processSeq (init (1/2) 1500 30)
        (List.replicate 30 (1/100) ++ [1/20, 1/20])).2.map
          (fun res => res.threshold)).getLast? = some (139/2500) := by
  with_unfolding_all rfl

end VoiceActivityDetector

namespace VoxPilotEngine

/-- If every VAD result along a run has `isSpeech = false` and
`speechEnded = false`, nothing is ever buffered and nothing is ever
flushed. -/
theorem runFrames_no_flush (inputs : List (List ℕ × ℚ)) :
    ∀ st : EngineState, st.speechBuffer = [] →
      (∀ res ∈ (VoiceActivityDetector.processSeq st.vad (inputs.map Prod.snd)).2,
        res.isSpeech = false ∧ res.speechEnded = false) →
      (runFrames st inputs).2 = [] ∧ (runFrames st inputs).1.speechBuffer = [] := by
  induction inputs with
  | nil => intro st hb _; exact ⟨rfl, hb⟩
  | cons x rest ih =>
    rintro ⟨vad0, buf0⟩ hb htrace
    obtain ⟨f, r⟩ := x
    simp only at hb
    subst hb
    have hhead : ((VoiceActivityDetector.process vad0 r).2).isSpeech = false
        ∧ ((VoiceActivityDetector.process vad0 r).2).speechEnded = false := by
      apply htrace
      simp only [List.map_cons, VoiceActivityDetector.processSeq]
      exact List.mem_cons_self _ _
    have hstep : processFrame (EngineState.mk vad0 []) f r
        = (EngineState.mk (VoiceActivityDetector.process vad0 r).1 [], none) := by
      simp [processFrame, pushFrame, finalizeSpeech, hhead.1, hhead.2]
    have htail := ih (EngineState.mk (VoiceActivityDetector.process vad0 r).1 []) rfl (by
      intro res hres
      apply htrace
      simp only [List.map_cons, VoiceActivityDetector.processSeq]
      exact List.mem_cons_of_mem _ hres)
    simp only [runFrames, hstep]
    simpa using htail

theorem scenario_no_flush :
    (runFrames (initEngine (1/2) 1500 30)
        ((List.replicate 30 ((1:ℚ)/100) ++ List.replicate 53 ((1:ℚ)/20) ++
          List.replicate 50 ((1:ℚ)/200)).map (fun r => (([] : List ℕ), r)))).2
      = [] := by
  refine (runFrames_no_flush _ (initEngine (1/2) 1500 30) rfl ?_).1
  have hmap : ((List.replicate 30 ((1:ℚ)/100) ++ List.replicate 53 ((1:ℚ)/20) ++
        List.replicate 50 ((1:ℚ)/200)).map (fun r => (([] : List ℕ), r))).map Prod.snd
      = List.replicate 30 ((1:ℚ)/100) ++ List.replicate 53 ((1:ℚ)/20) ++
        List.replicate 50 ((1:ℚ)/200) := by
    rw [List.map_map]
    simp
  rw [hmap]
  intro res hres
  have hmem : VoiceActivityDetector.eventTriple res ∈
      ((VoiceActivityDetector.processSeq (VoiceActivityDetector.init (1/2) 1500 30)
        (List.replicate 30 (1/100) ++ List.replicate 53 (1/20) ++
          List.replicate 50 (1/200))).2.map VoiceActivityDetector.eventTriple) :=
    List.mem_map_of_mem _ hres
  rw [VoiceActivityDetector.scenario_no_events] at hmem
  have h1 := List.eq_of_mem_replicate hmem
  rw [VoiceActivityDetector.eventTriple, Prod.mk.injEq, Prod.mk.injEq] at h1
  exact ⟨h1.1, h1.2.2⟩

end VoxPilotEngine

/-- C2 amended: what the code actually does on the spec scenario
(sensitivity 0.5, frameDurationMs 30; 30 calibration frames of RMS 0.01;
3+50 frames of RMS 0.05; 50 frames of RMS 0.005): the noise floor settles
at exactly 0.01 after calibration; the first RMS-0.05 frame sees threshold
`max(0.012·4, 0.002) = 0.048` (multiplier 4.0, EMA already applied) and is
classified as speech, but the second sees threshold `0.0556 > 0.05`
because the noise floor keeps adapting while the VAD is not yet Speaking;
consequently no `speechStarted` and no `speechEnded` is ever emitted and
the accumulator never flushes a segment (the frame bytes are irrelevant
since nothing is ever buffered). -/
theorem claim_spec_scenario_actual :
    (VoiceActivityDetector.processSeq (VoiceActivityDetector.init (1/2) 1500 30)
        (List.replicate 30 (1/100))).1.noiseFloor = 1/100
    ∧ ((VoiceActivityDetector.processSeq (VoiceActivityDetector.init (1/2) 1500 30)
        (List.replicate 30 (1/100) ++ [1/20])).2.map
          (fun res => res.threshold)).getLast? = some (6/125)
    ∧ ((VoiceActivityDetector.processSeq (VoiceActivityDetector.init (1/2) 1500 30)
        (List.replicate 30 (1/100) ++ [1/20, 1/20])).2.map
          (fun res => res.threshold)).getLast? = some (139/2500)
    ∧ ((VoiceActivityDetector.processSeq (VoiceActivityDetector.init (1/2) 1500 30)
        (List.replicate 30 (1/100) ++ List.replicate 53 (1/20) ++
          List.replicate 50 (1/200))).2.map VoiceActivityDetector.eventTriple) =
      List.replicate 133 (false, false, false)
    ∧ (VoxPilotEngine.runFrames (VoxPilotEngine.initEngine (1/2) 1500 30)
        ((List.replicate 30 ((1:ℚ)/100) ++ List.replicate 53 ((1:ℚ)/20) ++
          List.replicate 50 ((1:ℚ)/200)).map (fun r => (([] : List ℕ), r)))).2 = [] :=
  ⟨VoiceActivityDetector.scenario_noise_floor,
   VoiceActivityDetector.scenario_first_loud_threshold,
   VoiceActivityDetector.scenario_second_loud_threshold,
   VoiceActivityDetector.scenario_no_events,
   VoxPilotEngine.scenario_no_flush⟩

/-! ## RMS computation (claim C10) -/

namespace VoiceActivityDetector

theorem sumSquares_spec : ∀ pcm : List ℕ, 2 ∣ pcm.length →
    sumSquares pcm = some (((decodeSamplesLE pcm).map
      (fun s => ((s : ℚ) / 32768) * ((s : ℚ) / 32768))).sum)
  | [], _ => by simp [sumSquares, decodeSamplesLE]
  | [x], h => by simp at h
  | lo :: hi :: rest, h => by
    have h' : 2 ∣ rest.length := by
      simp only [List.length_cons] at h
      omega
    simp [sumSquares, decodeSamplesLE, sumSquares_spec rest h']

theorem decodeSamplesLE_length : ∀ pcm : List ℕ,
    (decodeSamplesLE pcm).length = pcm.length / 2
  | [] => by simp [decodeSamplesLE]
  | [x] => by simp [decodeSamplesLE]
  | lo :: hi :: rest => by
    simp only [decodeSamplesLE, List.length_cons, decodeSamplesLE_length rest]
    omega

end VoiceActivityDetector

/-- C10: for every frame whose byte count is a multiple of the 2-byte
sample width, the radicand computed by the source's RMS loop equals the
spec's formula — the mean of the squared samples, each 16-bit signed
little-endian sample normalized by dividing by 32768 (the source then
takes `Math.sqrt` of this value, so the computed RMS is the square root
of the same mean); and a zero-length frame yields exactly 0, returned by
the `samples === 0` guard without dividing by zero. -/
theorem claim_computeRMS_spec (pcm : List ℕ) (h : 2 ∣ pcm.length) :
    VoiceActivityDetector.computeRMSSq pcm =
      some (VoiceActivityDetector.specRMSSq pcm)
    ∧ VoiceActivityDetector.computeRMSSq [] = some 0 := by
  refine ⟨?_, by simp [VoiceActivityDetector.computeRMSSq]⟩
  match hp : pcm with
  | [] =>
    simp [VoiceActivityDetector.computeRMSSq, VoiceActivityDetector.specRMSSq,
      VoiceActivityDetector.decodeSamplesLE]
  | b :: rest =>
    rw [VoiceActivityDetector.computeRMSSq, if_neg (by simp)]
    rw [VoiceActivityDetector.sumSquares_spec _ (hp ▸ h)]
    rw [VoiceActivityDetector.specRMSSq, VoiceActivityDetector.decodeSamplesLE_length]
    rfl

/-- Witness for `claim_computeRMS_spec` at a concrete 2-sample frame
(samples 0x1234 and -1). -/
theorem claim_computeRMS_spec_witness :
    (2 ∣ [(0x34 : ℕ), 0x12, 0xFF, 0xFF].length)
    ∧ (VoiceActivityDetector.computeRMSSq [(0x34 : ℕ), 0x12, 0xFF, 0xFF] =
        some (VoiceActivityDetector.specRMSSq [(0x34 : ℕ), 0x12, 0xFF, 0xFF])
      ∧ VoiceActivityDetector.computeRMSSq [] = some 0) :=
  ⟨by decide, claim_computeRMS_spec _ (by decide)⟩

/-! ## Debounce invariant (claim C3) -/

namespace VoiceActivityDetector

theorem process_above_start (s : VadState) (r : ℚ) (hc : s.calibrated = true)
    (hab : currentThreshold s r < r)
    (hst : s.isSpeaking = false ∧ speechOnsetFrames ≤ s.speechFrames + 1) :
    process s r =
      ({ s with noiseFloor := updatedFloor s r, speechFrames := s.speechFrames + 1,
                silenceFrames := 0, isSpeaking := true },
       { isSpeech := true, speechStarted := true, speechEnded := false,
         rms := r, threshold := currentThreshold s r }) := by
  rw [process, if_neg (by rw [hc]; simp)]
  simp only [processCalibrated]
  rw [if_pos hab, if_pos hst]

theorem process_above_noStart (s : VadState) (r : ℚ) (hc : s.calibrated = true)
    (hab : currentThreshold s r < r)
    (hst : ¬ (s.isSpeaking = false ∧ speechOnsetFrames ≤ s.speechFrames + 1)) :
    process s r =
      ({ s with noiseFloor := updatedFloor s r, speechFrames := s.speechFrames + 1,
                silenceFrames := 0 },
       { isSpeech := s.isSpeaking, speechStarted := false, speechEnded := false,
         rms := r, threshold := currentThreshold s r }) := by
  rw [process, if_neg (by rw [hc]; simp)]
  simp only [processCalibrated]
  rw [if_pos hab, if_neg hst]

theorem process_below_end (s : VadState) (r : ℚ) (hc : s.calibrated = true)
    (hab : ¬ currentThreshold s r < r)
    (hend : s.isSpeaking = true ∧ s.silenceOnsetFrames ≤ ((s.silenceFrames + 1 : ℕ) : ℤ)) :
    process s r =
      ({ s with noiseFloor := updatedFloor s r, silenceFrames := s.silenceFrames + 1,
                speechFrames := 0, isSpeaking := false },
       { isSpeech := false, speechStarted := false, speechEnded := true,
         rms := r, threshold := currentThreshold s r }) := by
  rw [process, if_neg (by rw [hc]; simp)]
  simp only [processCalibrated]
  rw [if_neg hab, if_pos hend]

theorem process_below_noEnd (s : VadState) (r : ℚ) (hc : s.calibrated = true)
    (hab : ¬ currentThreshold s r < r)
    (hend : ¬ (s.isSpeaking = true ∧ s.silenceOnsetFrames ≤ ((s.silenceFrames + 1 : ℕ) : ℤ))) :
    process s r =
      ({ s with noiseFloor := updatedFloor s r, silenceFrames := s.silenceFrames + 1,
                speechFrames := 0 },
       { isSpeech := s.isSpeaking, speechStarted := false, speechEnded := false,
         rms := r, threshold := currentThreshold s r }) := by
  rw [process, if_neg (by rw [hc]; simp)]
  simp only [processCalibrated]
  rw [if_neg hab, if_neg hend]

theorem isAbove_process (s : VadState) (r : ℚ) (hc : s.calibrated = true) :
    isAbove (process s r).2 = decide (currentThreshold s r < r) := by
  rw [process, if_neg (by rw [hc]; simp)]
  simp only [processCalibrated]
  split
  · rename_i hab
    split <;> simp [isAbove, hab]
  · rename_i hab
    split <;> simp [isAbove, hab]

theorem isBelow_process (s : VadState) (r : ℚ) (hc : s.calibrated = true) :
    isBelow (process s r).2 = decide (r ≤ currentThreshold s r) := by
  rw [process, if_neg (by rw [hc]; simp)]
  simp only [processCalibrated]
  split
  · rename_i hab
    split <;> simp [isBelow, le_of_lt hab]
  · rename_i hab
    split <;> simp [isBelow, le_of_not_lt hab]

theorem replicate_append_cons {α : Type} (n : ℕ) (a : α) (l : List α) :
    List.replicate n a ++ a :: l = List.replicate (n + 1) a ++ l := by
  rw [List.replicate_succ']
  simp

/-- Starting from a calibrated non-Speaking state, as long as the trailing
speech-frame counter plus the classified bits never contain an onset-length
run of above-threshold frames, no `speechStarted` is emitted and the VAD
stays non-Speaking. -/
theorem no_onset_aux (rs : List ℚ) :
    ∀ s : VadState, s.calibrated = true → s.isSpeaking = false →
      ¬ (List.replicate speechOnsetFrames true).IsInfix
          (List.replicate s.speechFrames true ++ ((processSeq s rs).2.map isAbove)) →
      (∀ res ∈ (processSeq s rs).2, res.speechStarted = false)
      ∧ (processSeq s rs).1.isSpeaking = false
      ∧ (processSeq s rs).1.calibrated = true := by
  induction rs with
  | nil =>
    intro s hc hk _
    exact ⟨by intro res h; simp [processSeq] at h, hk, hc⟩
  | cons r rest ih =>
    intro s hc hk hrun
    simp only [processSeq, List.map_cons] at hrun ⊢
    by_cases hab : currentThreshold s r < r
    · have hbit : isAbove (process s r).2 = true := by
        rw [isAbove_process s r hc]
        exact decide_eq_true hab
      rw [hbit] at hrun
      rw [replicate_append_cons] at hrun
      by_cases hge : speechOnsetFrames ≤ s.speechFrames + 1
      · exfalso
        apply hrun
        have hsplit : List.replicate (s.speechFrames + 1) true =
            List.replicate speechOnsetFrames true ++
              List.replicate (s.speechFrames + 1 - speechOnsetFrames) true := by
          rw [← List.replicate_add]
          congr 1
          omega
        rw [hsplit, List.append_assoc]
        exact (List.prefix_append _ _).isInfix
      · rw [process_above_noStart s r hc hab (by
          intro hcontra
          exact hge hcontra.2)] at hrun ⊢
        have h := ih { s with noiseFloor := updatedFloor s r, speechFrames := s.speechFrames + 1, silenceFrames := 0 }
          hc hk hrun
        refine ⟨?_, h.2.1, h.2.2⟩
        intro res hres
        rcases List.mem_cons.1 hres with rfl | hres
        · rfl
        · exact h.1 res hres
    · have hbit : isAbove (process s r).2 = false := by
        rw [isAbove_process s r hc]
        exact decide_eq_false hab
      rw [hbit] at hrun
      rw [process_below_noEnd s r hc hab (by
        intro hcontra
        rw [hk] at hcontra
        simp at hcontra)] at hrun ⊢
      have hrun' : ¬ (List.replicate speechOnsetFrames true).IsInfix
          (List.replicate (0 : ℕ) true ++
            ((processSeq { s with noiseFloor := updatedFloor s r, silenceFrames := s.silenceFrames + 1, speechFrames := 0 } rest).2.map isAbove)) := by
        intro hin
        rw [List.replicate_zero, List.nil_append] at hin
        apply hrun
        exact hin.trans
          (((List.suffix_cons false _).trans (List.suffix_append _ _)).isInfix)
      have h := ih { s with noiseFloor := updatedFloor s r, silenceFrames := s.silenceFrames + 1, speechFrames := 0 }
        hc hk hrun'
      refine ⟨?_, h.2.1, h.2.2⟩
      intro res hres
      rcases List.mem_cons.1 hres with rfl | hres
      · rfl
      · exact h.1 res hres

/-- Starting from a calibrated non-Speaking state whose speech-frame
counter needs exactly the rest of the run to reach the onset count,
feeding only above-threshold frames emits `speechStarted` exactly on the
final frame. -/
theorem exact_onset_aux (rs : List ℚ) :
    ∀ s : VadState, s.calibrated = true → s.isSpeaking = false →
      s.speechFrames + rs.length = speechOnsetFrames → rs ≠ [] →
      ((processSeq s rs).2.map isAbove) = List.replicate rs.length true →
      (processSeq s rs).2.map (fun res => res.speechStarted)
        = List.replicate (rs.length - 1) false ++ [true] := by
  induction rs with
  | nil => intro s _ _ _ hne _; exact absurd rfl hne
  | cons r rest ih =>
    intro s hc hk hsum _ hab
    simp only [processSeq, List.map_cons, List.length_cons] at hab hsum ⊢
    rw [List.replicate_succ] at hab
    have hhead : isAbove (process s r).2 = true := (List.cons_eq_cons.1 hab).1
    have htail : (processSeq (process s r).1 rest).2.map isAbove
        = List.replicate rest.length true := (List.cons_eq_cons.1 hab).2
    have habv : currentThreshold s r < r := by
      rw [isAbove_process s r hc] at hhead
      exact of_decide_eq_true hhead
    by_cases hge : speechOnsetFrames ≤ s.speechFrames + 1
    · have hrest : rest.length = 0 := by omega
      have hrnil : rest = [] := List.length_eq_zero.1 hrest
      subst hrnil
      rw [process_above_start s r hc habv ⟨hk, hge⟩]
      simp [processSeq]
    · rw [process_above_noStart s r hc habv (fun hcontra => hge hcontra.2)] at htail ⊢
      have hlen : rest ≠ [] := by
        intro h0
        subst h0
        simp at hsum
        omega
      have h := ih { s with noiseFloor := updatedFloor s r, speechFrames := s.speechFrames + 1, silenceFrames := 0 }
        hc hk (by
          show s.speechFrames + 1 + rest.length = speechOnsetFrames
          omega) hlen htail
      rw [h, Nat.add_sub_cancel]
      have hpos : rest.length = rest.length - 1 + 1 := by
        rcases rest with _ | ⟨a, t⟩
        · exact absurd rfl hlen
        · simp
      conv_rhs => rw [hpos, List.replicate_succ, List.cons_append]

/-- Starting from a calibrated Speaking state, as long as the trailing
silence-frame counter plus the classified bits never contain an
offset-length run of below-threshold frames, no `speechEnded` is emitted
and the VAD stays Speaking. -/
theorem no_offset_aux (rs : List ℚ) :
    ∀ s : VadState, s.calibrated = true → s.isSpeaking = true →
      ¬ (List.replicate s.silenceOnsetFrames.toNat true).IsInfix
          (List.replicate s.silenceFrames true ++ ((processSeq s rs).2.map isBelow)) →
      (∀ res ∈ (processSeq s rs).2, res.speechEnded = false)
      ∧ (processSeq s rs).1.isSpeaking = true
      ∧ (processSeq s rs).1.calibrated = true := by
  induction rs with
  | nil =>
    intro s hc hk _
    exact ⟨by intro res h; simp [processSeq] at h, hk, hc⟩
  | cons r rest ih =>
    intro s hc hk hrun
    simp only [processSeq, List.map_cons] at hrun ⊢
    by_cases hab : currentThreshold s r < r
    · have hbit : isBelow (process s r).2 = false := by
        rw [isBelow_process s r hc]
        simp [not_le.2 hab]
      rw [hbit] at hrun
      rw [process_above_noStart s r hc hab (by
        intro hcontra
        rw [hk] at hcontra
        simp at hcontra)] at hrun ⊢
      have hrun' : ¬ (List.replicate s.silenceOnsetFrames.toNat true).IsInfix
          (List.replicate (0 : ℕ) true ++
            ((processSeq { s with noiseFloor := updatedFloor s r, speechFrames := s.speechFrames + 1, silenceFrames := 0 } rest).2.map isBelow)) := by
        intro hin
        rw [List.replicate_zero, List.nil_append] at hin
        apply hrun
        exact hin.trans
          (((List.suffix_cons false _).trans (List.suffix_append _ _)).isInfix)
      have h := ih { s with noiseFloor := updatedFloor s r, speechFrames := s.speechFrames + 1, silenceFrames := 0 }
        hc hk hrun'
      refine ⟨?_, h.2.1, h.2.2⟩
      intro res hres
      rcases List.mem_cons.1 hres with rfl | hres
      · rfl
      · exact h.1 res hres
    · have hbit : isBelow (process s r).2 = true := by
        rw [isBelow_process s r hc]
        simp [le_of_not_lt hab]
      rw [hbit, replicate_append_cons] at hrun
      by_cases hge : s.silenceOnsetFrames ≤ ((s.silenceFrames + 1 : ℕ) : ℤ)
      · exfalso
        apply hrun
        have hle : s.silenceOnsetFrames.toNat ≤ s.silenceFrames + 1 :=
          Int.toNat_le.2 hge
        have hsplit : List.replicate (s.silenceFrames + 1) true =
            List.replicate s.silenceOnsetFrames.toNat true ++
              List.replicate (s.silenceFrames + 1 - s.silenceOnsetFrames.toNat) true := by
          rw [← List.replicate_add]
          congr 1
          omega
        rw [hsplit, List.append_assoc]
        exact (List.prefix_append _ _).isInfix
      · rw [process_below_noEnd s r hc hab (fun hcontra => hge hcontra.2)] at hrun ⊢
        have h := ih { s with noiseFloor := updatedFloor s r, silenceFrames := s.silenceFrames + 1, speechFrames := 0 }
          hc hk hrun
        refine ⟨?_, h.2.1, h.2.2⟩
        intro res hres
        rcases List.mem_cons.1 hres with rfl | hres
        · rfl
        · exact h.1 res hres

/-- Starting from a calibrated Speaking state whose silence counter needs
exactly the rest of the run to reach the offset count, feeding only
below-threshold frames emits `speechEnded` exactly on the final frame. -/
theorem exact_offset_aux (rs : List ℚ) :
    ∀ s : VadState, s.calibrated = true → s.isSpeaking = true →
      ((s.silenceFrames : ℤ) + (rs.length : ℤ) = s.silenceOnsetFrames) → rs ≠ [] →
      ((processSeq s rs).2.map isBelow) = List.replicate rs.length true →
      (processSeq s rs).2.map (fun res => res.speechEnded)
        = List.replicate (rs.length - 1) false ++ [true] := by
  induction rs with
  | nil => intro s _ _ _ hne _; exact absurd rfl hne
  | cons r rest ih =>
    intro s hc hk hsum _ hbel
    simp only [processSeq, List.map_cons, List.length_cons] at hbel hsum ⊢
    rw [List.replicate_succ] at hbel
    have hhead : isBelow (process s r).2 = true := (List.cons_eq_cons.1 hbel).1
    have htail : (processSeq (process s r).1 rest).2.map isBelow
        = List.replicate rest.length true := (List.cons_eq_cons.1 hbel).2
    have hblw : ¬ currentThreshold s r < r := by
      rw [isBelow_process s r hc] at hhead
      exact not_lt.2 (of_decide_eq_true hhead)
    by_cases hrest : rest.length = 0
    · have hrnil : rest = [] := List.length_eq_zero.1 hrest
      subst hrnil
      have hcond : s.silenceOnsetFrames ≤ ((s.silenceFrames + 1 : ℕ) : ℤ) := by
        simp only [List.length_nil] at hsum
        omega
      rw [process_below_end s r hc hblw ⟨hk, hcond⟩]
      simp [processSeq]
    · have hcond : ¬ (s.isSpeaking = true ∧
          s.silenceOnsetFrames ≤ ((s.silenceFrames + 1 : ℕ) : ℤ)) := by
        intro hcontra
        have h2 := hcontra.2
        omega
      rw [process_below_noEnd s r hc hblw hcond] at htail ⊢
      have hlen : rest ≠ [] := by
        intro h0
        subst h0
        simp at hrest
      have h := ih { s with noiseFloor := updatedFloor s r, silenceFrames := s.silenceFrames + 1, speechFrames := 0 }
        hc hk (by
          show ((s.silenceFrames + 1 : ℕ) : ℤ) + (rest.length : ℤ) = s.silenceOnsetFrames
          omega) hlen htail
      rw [h, Nat.add_sub_cancel]
      have hpos : rest.length = rest.length - 1 + 1 := by omega
      conv_rhs => rw [hpos, List.replicate_succ, List.cons_append]

end VoiceActivityDetector

/-- C3: the Speaking/Silence transition is debounced in both directions.
From a calibrated state that is not Speaking (with a clear onset counter):
(1) a run whose classified bits never contain 3 consecutive
above-threshold frames produces no `speechStarted`; (2) a run of exactly
3 frames, all classified above threshold, produces exactly one
`speechStarted`, on the 3rd.  From a calibrated Speaking state (with a
clear offset counter): (3) a run whose classified bits never contain
`silenceOnsetFrames = ceil(silenceTimeoutMs/frameDurationMs)` consecutive
below-threshold frames produces no `speechEnded`; (4) a run of exactly
that many frames, all classified below threshold, ends speech with
`speechEnded = true` exactly on the final frame. -/
theorem claim_debounce_invariant (s : VadState) (rs : List ℚ)
    (hc : s.calibrated = true) :
    (s.isSpeaking = false → s.speechFrames = 0 →
      ¬ (List.replicate 3 true).IsInfix
          ((VoiceActivityDetector.processSeq s rs).2.map VoiceActivityDetector.isAbove) →
      ∀ res ∈ (VoiceActivityDetector.processSeq s rs).2, res.speechStarted = false)
    ∧ (s.isSpeaking = false → s.speechFrames = 0 → rs.length = 3 →
      (VoiceActivityDetector.processSeq s rs).2.map VoiceActivityDetector.isAbove
        = List.replicate 3 true →
      (VoiceActivityDetector.processSeq s rs).2.map (fun res => res.speechStarted)
        = [false, false, true])
    ∧ (s.isSpeaking = true → s.silenceFrames = 0 →
      ¬ (List.replicate s.silenceOnsetFrames.toNat true).IsInfix
          ((VoiceActivityDetector.processSeq s rs).2.map VoiceActivityDetector.isBelow) →
      ∀ res ∈ (VoiceActivityDetector.processSeq s rs).2, res.speechEnded = false)
    ∧ (s.isSpeaking = true → s.silenceFrames = 0 →
      ((rs.length : ℤ) = s.silenceOnsetFrames) → rs ≠ [] →
      (VoiceActivityDetector.processSeq s rs).2.map VoiceActivityDetector.isBelow
        = List.replicate rs.length true →
      (VoiceActivityDetector.processSeq s rs).2.map (fun res => res.speechEnded)
        = List.replicate (rs.length - 1) false ++ [true]) := by
  refine ⟨?_, ?_, ?_, ?_⟩
  · intro hk hsf hrun
    refine (VoiceActivityDetector.no_onset_aux rs s hc hk ?_).1
    rw [hsf]
    simpa [VoiceActivityDetector.speechOnsetFrames] using hrun
  · intro hk hsf hlen hab
    have h := VoiceActivityDetector.exact_onset_aux rs s hc hk
      (by rw [hsf, hlen]; rfl)
      (by intro h0; rw [h0] at hlen; simp at hlen)
      (by rw [hlen]; exact hab)
    rw [hlen] at h
    rw [h]
    rfl
  · intro hk hsl hrun
    refine (VoiceActivityDetector.no_offset_aux rs s hc hk ?_).1
    rw [hsl]
    simpa using hrun
  · intro hk hsl hlen hne hbel
    exact VoiceActivityDetector.exact_offset_aux rs s hc hk
      (by rw [hsl]; omega) hne hbel

/-- Witness for `claim_debounce_invariant`: concrete calibrated states
(30 silent calibration frames; `silenceTimeoutMs = 90`, so the offset
debounce is 3 frames) exercising all four debounce clauses. -/
theorem claim_debounce_invariant_witness :
    ((VoiceActivityDetector.processSeq (VoiceActivityDetector.init (1/2) 90 30)
        (List.replicate 30 0)).1.calibrated = true)
    ∧ (∀ res ∈ (VoiceActivityDetector.processSeq
        (VoiceActivityDetector.processSeq (VoiceActivityDetector.init (1/2) 90 30)
          (List.replicate 30 0)).1 [1, 1]).2, res.speechStarted = false)
    ∧ ((VoiceActivityDetector.processSeq
        (VoiceActivityDetector.processSeq (VoiceActivityDetector.init (1/2) 90 30)
          (List.replicate 30 0)).1 [1, 1, 1]).2.map (fun res => res.speechStarted)
        = [false, false, true])
    ∧ (∀ res ∈ (VoiceActivityDetector.processSeq
        (VoiceActivityDetector.processSeq (VoiceActivityDetector.init (1/2) 90 30)
          (List.replicate 30 0 ++ [1, 1, 1])).1 [0, 0]).2, res.speechEnded = false)
    ∧ ((VoiceActivityDetector.processSeq
        (VoiceActivityDetector.processSeq (VoiceActivityDetector.init (1/2) 90 30)
          (List.replicate 30 0 ++ [1, 1, 1])).1 [0, 0, 0]).2.map
        (fun res => res.speechEnded) = [false, false, true]) :=
  ⟨by with_unfolding_all rfl,
   (claim_debounce_invariant _ [1, 1] (by with_unfolding_all rfl)).1
     (by with_unfolding_all rfl) (by with_unfolding_all rfl)
     (by with_unfolding_all decide),
   (claim_debounce_invariant _ [1, 1, 1] (by with_unfolding_all rfl)).2.1
     (by with_unfolding_all rfl) (by with_unfolding_all rfl) rfl
     (by with_unfolding_all rfl),
   (claim_debounce_invariant _ [0, 0] (by with_unfolding_all rfl)).2.2.1
     (by with_unfolding_all rfl) (by with_unfolding_all rfl)
     (by with_unfolding_all decide),
   (claim_debounce_invariant _ [0, 0, 0] (by with_unfolding_all rfl)).2.2.2
     (by with_unfolding_all rfl) (by with_unfolding_all rfl)
     (by with_unfolding_all rfl) (by simp)
     (by with_unfolding_all rfl)⟩

end VoxPilot
